import Mathlib

/-!
Verification of the secure plugin runtime core of the `agent` repository.

Shallow embedding conventions:
* Byte strings (Python `bytes`) and text strings handled as opaque byte
  sequences are both modelled as `List Nat`.
* External cryptographic and serialisation primitives (hashlib, pycryptodome
  AES-GCM, Twofish, Whirlpool, scrypt, `json`, `base64`) are not code of this
  repository; they are modelled as parameters (function-valued structure
  fields or arguments), with their contracts (determinism, inversion,
  output lengths) taken as explicit hypotheses where a theorem needs them.
* Python exceptions are modelled with `Except`; an inductive error type
  mirrors the distinct `raise` sites.
* Where a claim is about evaluation order ("X happens before Y" / "Y is never
  reached"), the embedded function also returns a trace of the abstract
  operations it performed, in source order.
-/

/-- Byte strings (`bytes` and opaque `str` values) as sequences of numbers. -/
abbrev Bytes : Type := List Nat

/-- First-match lookup in an association list, as Python `dict.get` on the
dictionaries this code builds (whose keys are unique). -/
def dictGet {α β : Type} [DecidableEq α] : List (α × β) → α → Option β
  | [], _ => none
  | kv :: rest, k => if kv.1 = k then some kv.2 else dictGet rest k

/-- Python `d[k] = v` on an insertion-ordered dict: replace the value in
place when the key is present, otherwise append the new pair. -/
def dictSet {α β : Type} [DecidableEq α] (l : List (α × β)) (k : α) (v : β) :
    List (α × β) :=
  if (dictGet l k).isSome then
    l.map (fun kv => if kv.1 = k then (k, v) else kv)
  else
    l ++ [(k, v)]

/-! ## Secure Module Registry (`src/core/orchestrator_secure.py`)

The registry maps a module name to a record `{path, signature, timestamp}`.
`hashHex` abstracts `hashlib.sha256(data.encode()).hexdigest()`, the external
digest primitive used by `sign`; the import environment
(`importlib.import_module` plus `getattr`/`callable`) is abstracted as
`OrchWorld.modules`, mapping an importable path to an optional module, a module
being a map from function name to an optional callable. -/

/-- A registry record as stored by `register`. -/
structure ModRecord where
  path : String
  signature : String
  timestamp : Nat
  deriving DecidableEq

/-- The import environment: path to module, module to named callables. -/
structure OrchWorld (A R : Type) where
  modules : String → Option (String → Option (A → R))

/-- Orchestrator state: the registry mapping (insertion-ordered dict). -/
structure Orch where
  registry : List (String × ModRecord)

/-- `OrchestratorSecure.sign`: digest of the path string. -/
def Orch.sign (hashHex : String → String) (data : String) : String :=
  hashHex data

/-- `OrchestratorSecure.verify`: recompute the digest and compare. -/
def Orch.verify (hashHex : String → String) (data signature : String) : Bool :=
  Orch.sign hashHex data == signature

/-- `OrchestratorSecure.register`: import the module; on success store
`{path, signature := sign path, timestamp}`; on import failure the exception
is caught and logged and the registry is left unchanged. -/
def Orch.register {A R : Type} (hashHex : String → String) (w : OrchWorld A R)
    (o : Orch) (name path : String) (ts : Nat) : Orch :=
  match w.modules path with
  | none => o
  | some _ => { registry := dictSet o.registry name ⟨path, Orch.sign hashHex path, ts⟩ }

/-- Errors of `OrchestratorSecure.execute` (each a distinct `raise` site). -/
inductive OrchErr where
  | notRegistered
  | sigMismatch
  | importFail
  | funcNotFound
  deriving DecidableEq

/-- Abstract operations of `execute`, in source order, for tracing. -/
inductive OrchOp where
  | lookup
  | verifySig
  | importModule
  | getFunc
  | callFunc
  deriving DecidableEq

/-- `OrchestratorSecure.execute` with an operation trace: look the record up,
verify the stored signature against the recomputed digest of the stored path,
load the module, resolve the callable, invoke it. Each failure raises at
the corresponding point, performing no later operation. -/
def Orch.executeT {A R : Type} (hashHex : String → String) (w : OrchWorld A R)
    (o : Orch) (moduleName funcName : String) (args : A) :
    Except OrchErr R × List OrchOp :=
  match dictGet o.registry moduleName with
  | none => (.error .notRegistered, [.lookup])
  | some info =>
    if Orch.verify hashHex info.path info.signature then
      match w.modules info.path with
      | none => (.error .importFail, [.lookup, .verifySig, .importModule])
      | some m =>
        match m funcName with
        | none => (.error .funcNotFound, [.lookup, .verifySig, .importModule, .getFunc])
        | some f =>
          (.ok (f args), [.lookup, .verifySig, .importModule, .getFunc, .callFunc])
    else (.error .sigMismatch, [.lookup, .verifySig])

/-- `OrchestratorSecure.execute`: the result component alone. -/
def Orch.execute {A R : Type} (hashHex : String → String) (w : OrchWorld A R)
    (o : Orch) (moduleName funcName : String) (args : A) : Except OrchErr R :=
  (Orch.executeT hashHex w o moduleName funcName args).1

/-- Concrete digest function for witnesses: a constant digest. -/
def owHash : String → String := fun _ => "X"

/-- Concrete import environment for witnesses: no module importable. -/
def owWorld : OrchWorld Nat Nat := ⟨fun _ => none⟩

/-- Concrete registry whose record for `m` has a tampered signature
(the stored signature `bad` differs from `owHash` of the stored path). -/
def owOrchTampered : Orch := ⟨[("m", ⟨"p", "bad", 0⟩)]⟩

/-- Concrete registry whose record for `m` is exactly as `register` stored it
under `owHash` (signature equals the digest of the path). -/
def owOrchGood : Orch := ⟨[("m", ⟨"p", "X", 0⟩)]⟩

/-! ## Layered Cipher Gateway (`src/core/zero_trust_gateway.py`)

`seal` serialises, encrypts with AES-256-GCM (12-byte nonce, 16-byte tag),
concatenates `nonce ++ tag ++ ciphertext`, encrypts that with Twofish-CFB,
digests the Twofish ciphertext with Whirlpool, and packages
`{iv (base64), data (base64), hash (hex)}` as a base64-encoded JSON string.
`unseal` reverses this, checking the digest before either decryption.
All primitives are external library calls, abstracted as the fields of
`ZTPrims`; `Data` is the type of structured inputs and `Packet` the type of
base64-encoded JSON packages. The random nonces/IVs drawn from
`get_random_bytes` are passed as explicit arguments. -/

/-- The inner payload dict built by `seal`: base64 Twofish IV, base64
Twofish ciphertext, Whirlpool hex digest. -/
structure ZTPayload where
  iv : Bytes
  data : Bytes
  hash : Bytes
  deriving DecidableEq

/-- External primitives used by the gateway. -/
structure ZTPrims (Data Packet : Type) where
  jsonDumps : Data → Bytes
  jsonLoads : Bytes → Option Data
  aesEnc : Bytes → Bytes → Bytes → Bytes × Bytes
  aesDec : Bytes → Bytes → Bytes → Bytes → Option Bytes
  tfEnc : Bytes → Bytes → Bytes → Bytes
  tfDec : Bytes → Bytes → Bytes → Bytes
  whirlpool : Bytes → Bytes
  b64e : Bytes → Bytes
  b64d : Bytes → Option Bytes
  packE : ZTPayload → Packet
  packD : Packet → Option ZTPayload

/-- The two symmetric keys held by a `ZeroTrustGateway` instance. -/
structure ZTKeys where
  aesKey : Bytes
  twofishKey : Bytes

/-- Errors raised by `unseal` (decode failure, Whirlpool mismatch, AES-GCM
authentication failure, deserialisation failure). -/
inductive ZTErr where
  | malformed
  | integrityMismatch
  | authFail
  deriving DecidableEq

/-- Abstract operations of `unseal` after decoding, in source order. -/
inductive ZTOp where
  | digestCheck
  | twofishDecrypt
  | aesDecrypt
  deriving DecidableEq

namespace ZeroTrustGateway

/-- `ZeroTrustGateway.seal`: serialise, AES-GCM encrypt, build
`nonce ++ tag ++ ciphertext`, Twofish-encrypt, Whirlpool-digest the outer
ciphertext, package. `aesIv` and `tfIv` are the fresh random 12- and 16-byte
values from `get_random_bytes`. -/
def sealData {D P : Type} (p : ZTPrims D P) (g : ZTKeys) (data : D)
    (aesIv tfIv : Bytes) : P :=
  let raw := p.jsonDumps data
  let ct := p.aesEnc g.aesKey aesIv raw
  let aesPacket := aesIv ++ ct.2 ++ ct.1
  let tfCt := p.tfEnc g.twofishKey tfIv aesPacket
  p.packE ⟨p.b64e tfIv, p.b64e tfCt, p.whirlpool tfCt⟩

/-- `ZeroTrustGateway.unseal` with an operation trace: decode the package and
its base64 fields, recompute and compare the Whirlpool digest (raising on
mismatch before any decryption), Twofish-decrypt, split
`nonce ++ tag ++ ciphertext` at offsets 12 and 28, AES-GCM decrypt verifying
the tag, deserialise. -/
def unsealDataT {D P : Type} (p : ZTPrims D P) (g : ZTKeys) (packet : P) :
    Except ZTErr D × List ZTOp :=
  match p.packD packet with
  | none => (.error .malformed, [])
  | some payload =>
    match p.b64d payload.iv, p.b64d payload.data with
    | some tfIv, some tfCt =>
      if p.whirlpool tfCt = payload.hash then
        let aesPacket := p.tfDec g.twofishKey tfIv tfCt
        let aesIv := aesPacket.take 12
        let aesTag := (aesPacket.drop 12).take 16
        let aesCt := aesPacket.drop 28
        match p.aesDec g.aesKey aesIv aesCt aesTag with
        | none => (.error .authFail, [.digestCheck, .twofishDecrypt, .aesDecrypt])
        | some raw =>
          match p.jsonLoads raw with
          | none => (.error .malformed, [.digestCheck, .twofishDecrypt, .aesDecrypt])
          | some d => (.ok d, [.digestCheck, .twofishDecrypt, .aesDecrypt])
      else (.error .integrityMismatch, [.digestCheck])
    | _, _ => (.error .malformed, [])

/-- `ZeroTrustGateway.unseal`: the result component alone. -/
def unsealData {D P : Type} (p : ZTPrims D P) (g : ZTKeys) (packet : P) :
    Except ZTErr D :=
  (unsealDataT p g packet).1

end ZeroTrustGateway

/-- Trivially correct instantiation of the external primitives, for
witnesses: identity serialisation and ciphers, a constant 16-byte AES tag
checked on decryption, identity digest and base64. -/
def ztTriv : ZTPrims Bytes ZTPayload where
  jsonDumps := id
  jsonLoads := some
  aesEnc := fun _ _ m => (m, List.replicate 16 0)
  aesDec := fun _ _ ct tag => if tag = List.replicate 16 0 then some ct else none
  tfEnc := fun _ _ m => m
  tfDec := fun _ _ c => c
  whirlpool := id
  b64e := id
  b64d := some
  packE := id
  packD := some

/-- Concrete gateway keys for witnesses. -/
def ztKeys : ZTKeys := ⟨List.replicate 32 1, List.replicate 32 2⟩

/-! ## Secret Store (`src/core/key_store.py`)

`KeyStore` keeps a plaintext cache (a Python dict, insertion-ordered with
unique keys) plus a `loaded` flag, and persists the JSON-serialised cache
encrypted under a scrypt-derived AES-256-GCM key in the on-disk layout
`magic ++ salt ++ nonce ++ ciphertext ++ tag`. The filesystem (one file at
`self.path`) and the `KEYSTORE_PASSPHRASE` environment variable form
`KSWorld`; scrypt, AES-GCM and `json` are external and abstracted as
`KSPrims`; the fresh random salt and nonce of `_enc` are explicit
arguments. -/

/-- External primitives of the key store: scrypt KDF, AES-GCM, and the JSON
codec for string-to-string dicts. -/
structure KSPrims where
  kdf : Bytes → Bytes → Bytes
  aesEnc : Bytes → Bytes → Bytes → Bytes × Bytes
  aesDec : Bytes → Bytes → Bytes → Bytes → Option Bytes
  jsonDumps : List (Bytes × Bytes) → Bytes
  jsonLoads : Bytes → Option (List (Bytes × Bytes))

/-- The 4-byte magic prefix `AKS1`. -/
def aksMagic : Bytes := [65, 75, 83, 49]

/-- Errors of the key store: the `raise` sites of `set` (missing
passphrase), `_dec` (bad file, GCM verification failure) and `json.loads`. -/
inductive KSError where
  | missingPassphrase
  | invalidFile
  | authFail
  | badJson
  deriving DecidableEq

/-- `KeyStore._enc`: derive the key from passphrase and fresh salt, AES-GCM
encrypt under a fresh nonce, and lay out `magic ++ salt ++ nonce ++ ct ++ tag`. -/
def ksEnc (p : KSPrims) (pw salt nonce data : Bytes) : Bytes :=
  let key := p.kdf pw salt
  let ct := p.aesEnc key nonce data
  aksMagic ++ salt ++ nonce ++ ct.1 ++ ct.2

/-- `KeyStore._dec`: reject an empty blob or a wrong magic, slice out salt
(bytes 4..20), nonce (20..32), tag (last 16) and ciphertext (32..-16),
re-derive the key and AES-GCM decrypt verifying the tag. -/
def ksDec (p : KSPrims) (pw blob : Bytes) : Except KSError Bytes :=
  if blob = [] ∨ blob.take 4 ≠ aksMagic then .error .invalidFile
  else
    let salt := (blob.drop 4).take 16
    let nonce := (blob.drop 20).take 12
    let tag := blob.drop (blob.length - 16)
    let ct := (blob.drop 32).take (blob.length - 48)
    let key := p.kdf pw salt
    match p.aesDec key nonce ct tag with
    | none => .error .authFail
    | some data => .ok data

/-- In-memory key store state: plaintext cache and the `_loaded` flag. -/
structure KeyStore where
  cache : List (Bytes × Bytes)
  loaded : Bool
  deriving DecidableEq

/-- The world the store interacts with: the store file's content (if the
file exists) and the `KEYSTORE_PASSPHRASE` environment variable. -/
structure KSWorld where
  disk : Option Bytes
  env : Option Bytes
  deriving DecidableEq

/-- Passphrase resolution shared by `load` and `set`: the explicit argument
when given, otherwise the `KEYSTORE_PASSPHRASE` environment variable. -/
def resolvePass (arg env : Option Bytes) : Option Bytes :=
  match arg with
  | none => env
  | some q => some q

/-- `KeyStore.load`: a no-op when already loaded; otherwise resolve the
passphrase from the argument or the environment; with no (or an empty)
passphrase, or no file on disk, initialise an empty loaded store; otherwise
decrypt the blob and deserialise it into the cache. -/
def KeyStore.load (p : KSPrims) (ks : KeyStore) (w : KSWorld)
    (arg : Option Bytes) : Except KSError KeyStore :=
  if ks.loaded then .ok ks
  else
    match resolvePass arg w.env with
    | none => .ok ⟨[], true⟩
    | some pw =>
      if pw = [] then .ok ⟨[], true⟩
      else
        match w.disk with
        | none => .ok ⟨[], true⟩
        | some blob =>
          match ksDec p pw blob with
          | .error e => .error e
          | .ok plain =>
            match p.jsonLoads plain with
            | none => .error .badJson
            | some c => .ok ⟨c, true⟩

/-- `KeyStore.set`: resolve the passphrase (argument, then environment),
raising the missing-passphrase error when none (or an empty one) is
available before touching any state; then load, update the cache entry, and
re-encrypt the whole serialised cache to disk (`_save`, whose fresh salt and
nonce are the explicit `salt`/`nonce` arguments). -/
def KeyStore.set (p : KSPrims) (ks : KeyStore) (w : KSWorld)
    (arg : Option Bytes) (name value salt nonce : Bytes) :
    Except KSError (KeyStore × KSWorld) :=
  match resolvePass arg w.env with
  | none => .error .missingPassphrase
  | some pw =>
    if pw = [] then .error .missingPassphrase
    else
      match KeyStore.load p ks w (some pw) with
      | .error e => .error e
      | .ok ks1 =>
        let cache2 := dictSet ks1.cache name value
        .ok (⟨cache2, ks1.loaded⟩,
          { w with disk := some (ksEnc p pw salt nonce (p.jsonDumps cache2)) })

/-- `KeyStore.get`: load (the passphrase argument is optional), then read
the cache entry, falling back to the default. -/
def KeyStore.get (p : KSPrims) (ks : KeyStore) (w : KSWorld)
    (arg : Option Bytes) (name : Bytes) (default : Option Bytes) :
    Except KSError (Option Bytes × KeyStore) :=
  match KeyStore.load p ks w arg with
  | .error e => .error e
  | .ok ks1 =>
    .ok ((match dictGet ks1.cache name with
          | some v => some v
          | none => default), ks1)

/-- Length-prefixed encoding of one byte string, for the concrete witness
serialiser. -/
def encStr (b : Bytes) : Bytes := b.length :: b

/-- Concrete invertible serialiser for string-to-string dicts (stands in for
`json.dumps` in witnesses). -/
def kvEncode : List (Bytes × Bytes) → Bytes
  | [] => []
  | (k, v) :: rest => encStr k ++ encStr v ++ kvEncode rest

/-- Read back one length-prefixed byte string. -/
def readStr : Bytes → Option (Bytes × Bytes)
  | [] => none
  | n :: rest => if n ≤ rest.length then some (rest.take n, rest.drop n) else none

/-- Fuelled decoder for `kvEncode` (the fuel bounds the number of pairs). -/
def kvDecode : Nat → Bytes → Option (List (Bytes × Bytes))
  | _, [] => some []
  | 0, _ :: _ => none
  | fuel + 1, x :: xs =>
    match readStr (x :: xs) with
    | none => none
    | some (k, rest1) =>
      match readStr rest1 with
      | none => none
      | some (v, rest2) =>
        match kvDecode fuel rest2 with
        | none => none
        | some l => some ((k, v) :: l)

/-- Concrete inverse of `kvEncode` (stands in for `json.loads` in
witnesses). -/
def kvDecodeTop (b : Bytes) : Option (List (Bytes × Bytes)) :=
  kvDecode b.length b

/-- Trivially correct instantiation of the key store's external primitives,
for witnesses. -/
def ksTriv : KSPrims where
  kdf := fun pw salt => pw ++ salt
  aesEnc := fun _ _ d => (d, List.replicate 16 0)
  aesDec := fun _ _ ct tag => if tag = List.replicate 16 0 then some ct else none
  jsonDumps := kvEncode
  jsonLoads := kvDecodeTop

/-! ## Scheduler (`src/core/scheduler.py`)

The loop runs `while not stop: now = time(); for j in jobs: if now >= j.next_at:
try j.fn() finally j.next_at = time() + j.every_sec; sleep(0.2)`. Time is
modelled as a `Nat` clock threaded through the run: a callback maps the clock
at call time to (an optional raised exception, the clock after the call), and
the sleep advances the clock by one unit. There is no `except` clause in the
source, so a raised exception propagates out of the `for` and `while` after
the `finally` has updated `next_at`, terminating the loop thread. -/

/-- A scheduler job: interval, next-run time, and callback (which receives
the current clock and returns an optional raised exception plus the clock
after the call). -/
structure SJob (E : Type) where
  name : String
  everySec : Nat
  nextAt : Nat
  fn : Nat → Option E × Nat

/-- One pass of the `for` loop at a fixed `now`: fire each due job; the
`finally` always updates `next_at` to the post-call clock plus the interval;
a raised exception then propagates, leaving the remaining jobs unvisited.
Returns the updated jobs, the clock, and the propagated exception if any. -/
def fireJobs {E : Type} (now : Nat) :
    List (SJob E) → Nat → List (SJob E) × Nat × Option E
  | [], t => ([], t, none)
  | j :: rest, t =>
    if j.nextAt ≤ now then
      let r := j.fn t
      let j' := { j with nextAt := r.2 + j.everySec }
      match r.1 with
      | some e => (j' :: rest, r.2, some e)
      | none =>
        let res := fireJobs now rest r.2
        (j' :: res.1, res.2.1, res.2.2)
    else
      let res := fireJobs now rest t
      (j :: res.1, res.2.1, res.2.2)

/-- `Scheduler._loop`, run for `fuel` iterations of the `while`: each
iteration reads the clock as `now`, runs the `for` pass, then sleeps one
clock unit. An exception propagating from a job ends the run immediately
(the loop thread dies); otherwise the loop keeps ticking until the fuel is
exhausted. -/
def schedLoop {E : Type} : Nat → List (SJob E) → Nat → List (SJob E) × Nat × Option E
  | 0, jobs, t => (jobs, t, none)
  | n + 1, jobs, t =>
    let step := fireJobs t jobs t
    match step.2.2 with
    | some e => (step.1, step.2.1, some e)
    | none => schedLoop n step.1 (step.2.1 + 1)

/-- A job whose callback always raises, taking one clock unit per call. -/
def badJob : SJob Unit := ⟨"bad", 7, 0, fun t => (some (), t + 1)⟩

/-- A job whose callback never raises and returns instantly. -/
def goodJob : SJob Unit := ⟨"good", 5, 0, fun t => (none, t)⟩

/-! ## Task Queue (`src/core/task_queue.py`)

`put` enqueues `(priority, time.time(), fn, args, kwargs)` into a
`queue.PriorityQueue`, which releases entries in ascending tuple order;
workers repeatedly `get` the least entry. `time.time()` is modelled as a
strictly increasing counter (`TaskQueue.clock`), and a queued entry by its
comparison key `(priority, enqueue counter)` — the callback payload plays no
part in the ordering the claim is about. Draining models the sequence of
values successive `get` calls return. -/

/-- A queued entry's comparison key: `(priority, enqueue time)`. -/
abbrev QTask : Type := Nat × Nat

/-- Lexicographic order on `(priority, enqueue time)`, as Python compares
the queued tuples. -/
def taskLe (a b : QTask) : Prop :=
  a.1 < b.1 ∨ (a.1 = b.1 ∧ a.2 ≤ b.2)

instance (a b : QTask) : Decidable (taskLe a b) := by
  unfold taskLe; infer_instance

/-- Select the least entry (what `PriorityQueue.get` returns), with the rest
of the heap contents. -/
def selMin : QTask → List QTask → QTask × List QTask
  | m, [] => (m, [])
  | m, x :: xs =>
    if taskLe x m then
      let r := selMin x xs
      (r.1, m :: r.2)
    else
      let r := selMin m xs
      (r.1, x :: r.2)

/-- Pop the least entry `fuel` times (fuel covers the list length). -/
def drainFuel : Nat → List QTask → List QTask
  | 0, _ => []
  | _, [] => []
  | n + 1, x :: xs =>
    let r := selMin x xs
    r.1 :: drainFuel n r.2

/-- The sequence of entries successive `get` calls return until the queue is
empty. -/
def drain (l : List QTask) : List QTask :=
  drainFuel l.length l

/-- Task queue state: the queued comparison keys and the clock standing for
`time.time()`. -/
structure TaskQueue where
  q : List QTask
  clock : Nat

/-- `TaskQueue.put`: enqueue `(priority, time.time())`; the clock then
advances. -/
def TaskQueue.put (tq : TaskQueue) (priority : Nat) : TaskQueue :=
  ⟨tq.q ++ [(priority, tq.clock)], tq.clock + 1⟩

/-- Enqueue a list of priorities in order into an initially empty queue. -/
def enqueueAll (ps : List Nat) : TaskQueue :=
  ps.foldl TaskQueue.put ⟨[], 0⟩

/-! ## Event Bus (`src/core/event_bus.py`)

Subscribers per topic are kept in append order (`defaultdict(list)` plus
`append`). `publish` snapshots the topic's handler list and invokes each in
order inside `try/except Exception: pass`, so a raising handler mutates
nothing and stops nothing. A handler is modelled as `S → Except E S` over an
abstract world state `S`; `publish` additionally returns the list of
(zero-based) positions invoked, in invocation order. -/

/-- Event bus state: topic to handler list, in subscription order. -/
structure EventBus (S E : Type) where
  subs : List (String × List (S → Except E S))

/-- The current handler list of a topic (`self._sub.get(topic, [])`). -/
def EventBus.subsOf {S E : Type} (bus : EventBus S E) (topic : String) :
    List (S → Except E S) :=
  (dictGet bus.subs topic).getD []

/-- `EventBus.subscribe`: append the handler to the topic's list. -/
def EventBus.subscribe {S E : Type} (bus : EventBus S E) (topic : String)
    (h : S → Except E S) : EventBus S E :=
  ⟨dictSet bus.subs topic (bus.subsOf topic ++ [h])⟩

/-- The `for h in handlers: try h(data) except Exception: pass` loop over the
snapshot, invoking every handler once in order: a raised exception leaves the
state unchanged and the loop continues. Also records each invoked handler's
position. -/
def publishGo {S E : Type} : List (S → Except E S) → S → Nat → S × List Nat
  | [], s, _ => (s, [])
  | h :: rest, s, i =>
    let s' := match h s with
      | .ok s1 => s1
      | .error _ => s
    let r := publishGo rest s' (i + 1)
    (r.1, i :: r.2)

/-- `EventBus.publish`: snapshot the topic's handlers and run the loop.
Returns the final state and the invoked positions; the function is total:
no handler failure escapes to the publisher. -/
def EventBus.publish {S E : Type} (bus : EventBus S E) (topic : String)
    (s : S) : S × List Nat :=
  publishGo (bus.subsOf topic) s 0

/-! ## Theorems -/

theorem dictGet_append_singleton {α β : Type} [DecidableEq α]
    (l : List (α × β)) (k : α) (v : β) (h : dictGet l k = none) :
    dictGet (l ++ [(k, v)]) k = some v := by
  induction l with
  | nil => simp [dictGet]
  | cons kv rest ih =>
    by_cases hk : kv.1 = k
    · simp [dictGet, hk] at h
    · simp only [dictGet, hk, if_neg hk, List.cons_append] at h ⊢
      exact ih h

theorem dictGet_map_replace {α β : Type} [DecidableEq α]
    (l : List (α × β)) (k : α) (v : β) (h : (dictGet l k).isSome) :
    dictGet (l.map (fun kv => if kv.1 = k then (k, v) else kv)) k = some v := by
  induction l with
  | nil => simp [dictGet] at h
  | cons kv rest ih =>
    by_cases hk : kv.1 = k
    · simp [dictGet, hk]
    · simp only [dictGet, hk, if_neg hk] at h
      simpa [dictGet, hk] using ih h

theorem dictGet_dictSet {α β : Type} [DecidableEq α]
    (l : List (α × β)) (k : α) (v : β) :
    dictGet (dictSet l k v) k = some v := by
  unfold dictSet
  by_cases h : (dictGet l k).isSome
  · rw [if_pos h]; exact dictGet_map_replace l k v h
  · rw [if_neg h]
    exact dictGet_append_singleton l k v (Option.not_isSome_iff_eq_none.mp h)

theorem taskLe_refl (a : QTask) : taskLe a a := by
  unfold taskLe; omega

theorem taskLe_trans (a b c : QTask) :
    taskLe a b → taskLe b c → taskLe a c := by
  unfold taskLe; omega

theorem taskLe_total (a b : QTask) : taskLe a b ∨ taskLe b a := by
  unfold taskLe; omega

theorem selMin_perm (m : QTask) (l : List QTask) :
    List.Perm ((selMin m l).1 :: (selMin m l).2) (m :: l) := by
  induction l generalizing m with
  | nil => exact List.Perm.refl _
  | cons x xs ih =>
    by_cases hc : taskLe x m
    · simp only [selMin, if_pos hc]
      exact (List.Perm.swap m (selMin x xs).1 (selMin x xs).2).trans
        (List.Perm.cons m (ih x))
    · simp only [selMin, if_neg hc]
      exact ((List.Perm.swap x (selMin m xs).1 (selMin m xs).2).trans
        (List.Perm.cons x (ih m))).trans (List.Perm.swap m x xs)
  
theorem selMin_le (m : QTask) (l : List QTask) :
    ∀ y ∈ m :: l, taskLe (selMin m l).1 y := by
  induction l generalizing m with
  | nil =>
    intro y hy
    simp only [List.mem_cons, List.not_mem_nil, or_false] at hy
    subst hy
    exact taskLe_refl _
  | cons x xs ih =>
    intro y hy
    simp only [List.mem_cons] at hy
    by_cases hc : taskLe x m
    · simp only [selMin, if_pos hc]
      rcases hy with h | h | h
      · exact taskLe_trans _ _ _ (ih x x (by simp)) (h ▸ hc)
      · exact ih x y (by simp [h])
      · exact ih x y (by simp [h])
    · have hmx : taskLe m x := (taskLe_total x m).resolve_left hc
      simp only [selMin, if_neg hc]
      rcases hy with h | h | h
      · exact ih m y (by simp [h])
      · exact taskLe_trans _ _ _ (ih m m (by simp)) (h ▸ hmx)
      · exact ih m y (by simp [h])

theorem drainFuel_perm_sorted :
    ∀ (n : Nat) (l : List QTask), l.length ≤ n →
      List.Perm (drainFuel n l) l ∧ List.Sorted taskLe (drainFuel n l) := by
  intro n
  induction n with
  | zero =>
    intro l hl
    have : l = [] := List.eq_nil_of_length_eq_zero (Nat.le_zero.mp hl)
    subst this
    exact ⟨List.Perm.refl _, List.sorted_nil⟩
  | succ n ih =>
    intro l hl
    cases l with
    | nil => exact ⟨List.Perm.refl _, List.sorted_nil⟩
    | cons x xs =>
      have hperm := selMin_perm x xs
      have hlen : (selMin x xs).2.length = xs.length := by
        have := hperm.length_eq
        simpa using this
      have hrec := ih (selMin x xs).2
        (by rw [hlen]; exact Nat.le_of_succ_le_succ hl)
      constructor
      · exact (List.Perm.cons (selMin x xs).1 hrec.1).trans hperm
      · rw [show drainFuel (n + 1) (x :: xs)
            = (selMin x xs).1 :: drainFuel n (selMin x xs).2 from rfl]
        refine List.sorted_cons.mpr ⟨?_, hrec.2⟩
        intro b hb
        have hb2 : b ∈ (selMin x xs).2 := (hrec.1.mem_iff).mp hb
        have : b ∈ x :: xs := hperm.mem_iff.mp (List.mem_cons_of_mem _ hb2)
        exact selMin_le x xs b this

theorem publishGo_trace {S E : Type} :
    ∀ (hs : List (S → Except E S)) (s : S) (i : Nat),
      (publishGo hs s i).2 = List.range' i hs.length := by
  intro hs
  induction hs with
  | nil => intro s i; rfl
  | cons h rest ih =>
    intro s i
    simp only [publishGo, List.length_cons, List.range'_succ, ih]

theorem readStr_pref (b rest : Bytes) :
    readStr (b.length :: (b ++ rest)) = some (b, rest) := by
  have h : b.length ≤ (b ++ rest).length := by simp
  simp only [readStr, if_pos h, List.take_left, List.drop_left]

theorem kvDecode_kvEncode (l : List (Bytes × Bytes)) :
    ∀ fuel, (kvEncode l).length ≤ fuel → kvDecode fuel (kvEncode l) = some l := by
  induction l with
  | nil => intro fuel _; cases fuel <;> rfl
  | cons kv rest ih =>
    intro fuel hfuel
    obtain ⟨k, v⟩ := kv
    have hne : kvEncode ((k, v) :: rest) =
        encStr k ++ (encStr v ++ kvEncode rest) := by
      simp [kvEncode, List.append_assoc]
    cases fuel with
    | zero =>
      rw [hne] at hfuel
      simp [encStr] at hfuel
    | succ f =>
      have hlen : (kvEncode rest).length ≤ f := by
        rw [hne] at hfuel
        simp only [List.length_append, encStr, List.length_cons] at hfuel
        omega
      rw [hne]
      simp only [encStr, List.cons_append, List.append_eq, kvDecode, readStr_pref, ih f hlen]

theorem kvDecodeTop_kvEncode (l : List (Bytes × Bytes)) :
    kvDecodeTop (kvEncode l) = some l :=
  kvDecode_kvEncode l _ le_rfl

theorem ksDec_ksEnc (p : KSPrims) (pw salt nonce data : Bytes)
    (hsalt : salt.length = 16) (hnonce : nonce.length = 12)
    (htag : (p.aesEnc (p.kdf pw salt) nonce data).2.length = 16)
    (haes : p.aesDec (p.kdf pw salt) nonce
        (p.aesEnc (p.kdf pw salt) nonce data).1
        (p.aesEnc (p.kdf pw salt) nonce data).2 = some data) :
    ksDec p pw (ksEnc p pw salt nonce data) = .ok data := by
  unfold ksEnc ksDec
  simp only [List.append_assoc]
  set ct := (p.aesEnc (p.kdf pw salt) nonce data).1 with hct
  set tag := (p.aesEnc (p.kdf pw salt) nonce data).2 with htg
  have hmag : aksMagic.length = 4 := rfl
  have hd4 : (aksMagic ++ (salt ++ (nonce ++ (ct ++ tag)))).drop 4
      = salt ++ (nonce ++ (ct ++ tag)) := List.drop_left' hmag
  have hd20 : (aksMagic ++ (salt ++ (nonce ++ (ct ++ tag)))).drop 20
      = nonce ++ (ct ++ tag) := by
    have : ((aksMagic ++ (salt ++ (nonce ++ (ct ++ tag)))).drop 4).drop 16
        = nonce ++ (ct ++ tag) := by rw [hd4]; exact List.drop_left' hsalt
    rwa [List.drop_drop] at this
  have hd32 : (aksMagic ++ (salt ++ (nonce ++ (ct ++ tag)))).drop 32
      = ct ++ tag := by
    have : ((aksMagic ++ (salt ++ (nonce ++ (ct ++ tag)))).drop 20).drop 12
        = ct ++ tag := by rw [hd20]; exact List.drop_left' hnonce
    rwa [List.drop_drop] at this
  have hlen : (aksMagic ++ (salt ++ (nonce ++ (ct ++ tag)))).length
      = 48 + ct.length := by
    simp [List.length_append, hmag, hsalt, hnonce, ← htg, htag]
    omega
  have htagpart : (aksMagic ++ (salt ++ (nonce ++ (ct ++ tag)))).drop
      ((aksMagic ++ (salt ++ (nonce ++ (ct ++ tag)))).length - 16) = tag := by
    rw [hlen]
    have h48 : 48 + ct.length - 16 = 32 + ct.length := by omega
    rw [h48]
    have : ((aksMagic ++ (salt ++ (nonce ++ (ct ++ tag)))).drop 32).drop ct.length
        = tag := by rw [hd32]; exact List.drop_left ct tag
    rwa [List.drop_drop] at this
  have hctpart : (ct ++ tag).take
      ((aksMagic ++ (salt ++ (nonce ++ (ct ++ tag)))).length - 48) = ct := by
    rw [hlen]
    have h48 : 48 + ct.length - 48 = ct.length := by omega
    rw [h48]
    exact List.take_left ct tag
  rw [if_neg]
  · simp only [hd4, hd20, hd32, htagpart, hctpart, List.take_left' hsalt,
      List.take_left' hnonce]
    rw [haes]
  · push_neg
    constructor
    · simp [aksMagic]
    · rw [List.take_left' hmag]

/-- C4: a successful `set` with a resolvable passphrase persists a blob
that a fresh store instance, loading with the same passphrase, decrypts
back so that `get` returns exactly the value that was set. Assumes the
external-primitive contracts (16-byte salt, 12-byte GCM nonce, 16-byte tag,
AES-GCM decryption inverting encryption, `json.loads` inverting
`json.dumps`). -/
theorem keystore_set_get_roundtrip (p : KSPrims) (ks : KeyStore) (w : KSWorld)
    (pw name value salt nonce : Bytes) (ksOut : KeyStore) (w1 : KSWorld)
    (hset : KeyStore.set p ks w (some pw) name value salt nonce = .ok (ksOut, w1))
    (hsalt : salt.length = 16) (hnonce : nonce.length = 12)
    (htag : ∀ k d, (p.aesEnc k nonce d).2.length = 16)
    (haes : ∀ k d, p.aesDec k nonce (p.aesEnc k nonce d).1 (p.aesEnc k nonce d).2
        = some d)
    (hjson : ∀ c, p.jsonLoads (p.jsonDumps c) = some c) :
    KeyStore.get p ⟨[], false⟩ w1 (some pw) name none
      = .ok (some value, ⟨ksOut.cache, true⟩) := by
  simp only [KeyStore.set, resolvePass] at hset
  by_cases hpw : pw = []
  · simp [hpw] at hset
  · rw [if_neg hpw] at hset
    cases hload : KeyStore.load p ks w (some pw) with
    | error e => rw [hload] at hset; cases hset
    | ok ks1 =>
      rw [hload] at hset
      simp only [Except.ok.injEq, Prod.mk.injEq] at hset
      obtain ⟨hks, hw⟩ := hset
      subst hw
      unfold KeyStore.get KeyStore.load
      simp only [resolvePass, if_neg hpw]
      have hdec : ksDec p pw (ksEnc p pw salt nonce
          (p.jsonDumps (dictSet ks1.cache name value)))
          = .ok (p.jsonDumps (dictSet ks1.cache name value)) :=
        ksDec_ksEnc p pw salt nonce _ hsalt hnonce (htag _ _) (haes _ _)
      simp only [Bool.false_eq_true, if_false, hdec, hjson, dictGet_dictSet,
        ← hks]

/-- Witness for C4 with the trivial primitives and a concrete entry. -/
theorem keystore_set_get_roundtrip_witness :
    KeyStore.get ksTriv ⟨[], false⟩
      ⟨some (ksEnc ksTriv [1] (List.replicate 16 0) (List.replicate 12 0)
        (kvEncode [([2], [3])])), none⟩
      (some [1]) [2] none
      = .ok (some [3], ⟨[([2], [3])], true⟩) :=
  keystore_set_get_roundtrip ksTriv ⟨[], false⟩ ⟨none, none⟩
    [1] [2] [3] (List.replicate 16 0) (List.replicate 12 0)
    ⟨[([2], [3])], true⟩
    ⟨some (ksEnc ksTriv [1] (List.replicate 16 0) (List.replicate 12 0)
      (kvEncode [([2], [3])])), none⟩
    (by rfl) (by decide) (by decide)
    (fun _ _ => rfl) (fun _ d => by simp [ksTriv])
    kvDecodeTop_kvEncode

/-- C5 fails on the code: once `load` has run with no passphrase it marks the
store loaded with an empty cache, and every later `load` or `get` — even with
the correct passphrase — returns immediately without decrypting. Concrete
counterexample: a store file holding the entry `[2] ↦ [3]` under passphrase
`[1]`; after a passphrase-less `load`, `get` with the correct passphrase
returns `none` and the cache stays empty, although a truly fresh instance
loading with that passphrase does recover the entry. -/
theorem keystore_deferred_decrypt_counterexample :
    KeyStore.load ksTriv ⟨[], false⟩
      ⟨some (ksEnc ksTriv [1] (List.replicate 16 0) (List.replicate 12 0)
        (kvEncode [([2], [3])])), none⟩ none
      = .ok ⟨[], true⟩
    ∧ KeyStore.get ksTriv ⟨[], true⟩
      ⟨some (ksEnc ksTriv [1] (List.replicate 16 0) (List.replicate 12 0)
        (kvEncode [([2], [3])])), none⟩ (some [1]) [2] none
      = .ok (none, ⟨[], true⟩)
    ∧ KeyStore.load ksTriv ⟨[], false⟩
      ⟨some (ksEnc ksTriv [1] (List.replicate 16 0) (List.replicate 12 0)
        (kvEncode [([2], [3])])), none⟩ (some [1])
      = .ok ⟨[([2], [3])], true⟩ := by
  exact ⟨rfl, rfl, rfl⟩

/-- C5 amended: a first `load` with no resolvable passphrase marks the store
loaded with an empty cache, after which a later `load` or `get` with any
passphrase (correct or not) is a no-op on the already-loaded store: it does
not decrypt the file and reads return nothing. -/
theorem keystore_no_pass_load_is_final (p : KSPrims) (w w' : KSWorld)
    (arg : Option Bytes) (name : Bytes)
    (henv : w.env = none) :
    KeyStore.load p ⟨[], false⟩ w none = .ok ⟨[], true⟩
    ∧ KeyStore.load p ⟨[], true⟩ w' arg = .ok ⟨[], true⟩
    ∧ KeyStore.get p ⟨[], true⟩ w' arg name none = .ok (none, ⟨[], true⟩) := by
  refine ⟨?_, rfl, rfl⟩
  unfold KeyStore.load
  simp [resolvePass, henv]

/-- Witness for the amended C5 at a concrete world. -/
theorem keystore_no_pass_load_is_final_witness :
    KeyStore.load ksTriv ⟨[], false⟩ ⟨some [9], none⟩ none = .ok ⟨[], true⟩
    ∧ KeyStore.load ksTriv ⟨[], true⟩ ⟨some [9], none⟩ (some [1]) = .ok ⟨[], true⟩
    ∧ KeyStore.get ksTriv ⟨[], true⟩ ⟨some [9], none⟩ (some [1]) [2] none
      = .ok (none, ⟨[], true⟩) :=
  keystore_no_pass_load_is_final ksTriv ⟨some [9], none⟩ ⟨some [9], none⟩
    (some [1]) [2] rfl

/-- C9: `set` with no passphrase argument and no environment passphrase
fails with the missing-passphrase error. The raise happens before the load,
the cache update and the save, so no state is produced (in this embedding a
`.error` result carries no successor store or world: cache and disk are
unchanged). Python raises `RuntimeError("Missing passphrase; ...")`, the
error the spec names `MissingPassphraseError`. -/
theorem keystore_set_missing_passphrase (p : KSPrims) (ks : KeyStore)
    (w : KSWorld) (name value salt nonce : Bytes)
    (henv : w.env = none ∨ w.env = some []) :
    KeyStore.set p ks w none name value salt nonce
      = .error .missingPassphrase := by
  unfold KeyStore.set
  rcases henv with h | h <;> simp [resolvePass, h]

/-- Witness for C9 at a concrete store and empty environment. -/
theorem keystore_set_missing_passphrase_witness :
    KeyStore.set ksTriv ⟨[], false⟩ ⟨none, none⟩ none [2] [3]
      (List.replicate 16 0) (List.replicate 12 0)
      = .error .missingPassphrase :=
  keystore_set_missing_passphrase ksTriv ⟨[], false⟩ ⟨none, none⟩ [2] [3]
    (List.replicate 16 0) (List.replicate 12 0) (.inl rfl)

/-- C2: sealing then unsealing with the same gateway instance returns the
original structured data, given the contracts of the external primitives
(AES-GCM nonce of 12 bytes and tag of 16 bytes, each decrypt inverting the
corresponding encrypt, and the serialisation and base64 codecs inverting). -/
theorem seal_unseal_roundtrip {D P : Type} (p : ZTPrims D P) (g : ZTKeys)
    (x : D) (aesIv tfIv : Bytes)
    (hIvLen : aesIv.length = 12)
    (hTagLen : ∀ k n m, ((p.aesEnc k n m).2).length = 16)
    (hAes : ∀ k n m, p.aesDec k n (p.aesEnc k n m).1 (p.aesEnc k n m).2 = some m)
    (hTf : ∀ k iv m, p.tfDec k iv (p.tfEnc k iv m) = m)
    (hB64 : ∀ b, p.b64d (p.b64e b) = some b)
    (hPack : ∀ pl, p.packD (p.packE pl) = some pl)
    (hJson : ∀ d, p.jsonLoads (p.jsonDumps d) = some d) :
    ZeroTrustGateway.unsealData p g (ZeroTrustGateway.sealData p g x aesIv tfIv)
      = .ok x := by
  unfold ZeroTrustGateway.unsealData ZeroTrustGateway.unsealDataT ZeroTrustGateway.sealData
  simp only [hPack, hB64, hTf]
  have h1 : (aesIv ++ ((p.aesEnc g.aesKey aesIv (p.jsonDumps x)).2
      ++ (p.aesEnc g.aesKey aesIv (p.jsonDumps x)).1)).take 12 = aesIv :=
    List.take_left' hIvLen
  have h2 : (aesIv ++ ((p.aesEnc g.aesKey aesIv (p.jsonDumps x)).2
      ++ (p.aesEnc g.aesKey aesIv (p.jsonDumps x)).1)).drop 12
      = (p.aesEnc g.aesKey aesIv (p.jsonDumps x)).2
        ++ (p.aesEnc g.aesKey aesIv (p.jsonDumps x)).1 :=
    List.drop_left' hIvLen
  have h3 : ((p.aesEnc g.aesKey aesIv (p.jsonDumps x)).2
      ++ (p.aesEnc g.aesKey aesIv (p.jsonDumps x)).1).take 16
      = (p.aesEnc g.aesKey aesIv (p.jsonDumps x)).2 :=
    List.take_left' (hTagLen _ _ _)
  have h4 : (aesIv ++ ((p.aesEnc g.aesKey aesIv (p.jsonDumps x)).2
      ++ (p.aesEnc g.aesKey aesIv (p.jsonDumps x)).1)).drop 28
      = (p.aesEnc g.aesKey aesIv (p.jsonDumps x)).1 := by
    have h28 : 28 = 12 + 16 := rfl
    rw [h28, ← List.drop_drop, h2, List.drop_left' (hTagLen _ _ _)]
  simp only [List.append_assoc, if_true, h1, h2, h3, h4, hAes, hJson]

/-- Witness for C2 at the trivial primitive instantiation and a concrete
input. -/
theorem seal_unseal_roundtrip_witness :
    ZeroTrustGateway.unsealData ztTriv ztKeys
      (ZeroTrustGateway.sealData ztTriv ztKeys [1, 2, 3]
        (List.replicate 12 0) (List.replicate 16 5))
      = .ok [1, 2, 3] :=
  seal_unseal_roundtrip ztTriv ztKeys [1, 2, 3]
    (List.replicate 12 0) (List.replicate 16 5)
    (by decide) (fun _ _ _ => rfl) (fun _ _ _ => by simp [ztTriv])
    (fun _ _ _ => rfl) (fun _ => rfl) (fun _ => rfl) (fun _ => rfl)

/-- C3: when the recomputed Whirlpool digest of the decoded outer ciphertext
differs from the digest stored in the packet, `unseal` fails with the
integrity error and its trace contains neither decryption operation. -/
theorem unseal_digest_mismatch_fails_before_decrypt {D P : Type}
    (p : ZTPrims D P) (g : ZTKeys) (packet : P) (payload : ZTPayload)
    (tfIv tfCt : Bytes)
    (hdecode : p.packD packet = some payload)
    (hiv : p.b64d payload.iv = some tfIv)
    (hdata : p.b64d payload.data = some tfCt)
    (hmismatch : p.whirlpool tfCt ≠ payload.hash) :
    ZeroTrustGateway.unsealDataT p g packet
      = (.error .integrityMismatch, [.digestCheck])
    ∧ ZTOp.twofishDecrypt ∉ (ZeroTrustGateway.unsealDataT p g packet).2
    ∧ ZTOp.aesDecrypt ∉ (ZeroTrustGateway.unsealDataT p g packet).2 := by
  refine ⟨?_, ?_, ?_⟩ <;>
    simp [ZeroTrustGateway.unsealDataT, hdecode, hiv, hdata, hmismatch]

/-- Witness for C3 at a concrete packet whose stored digest is wrong. -/
theorem unseal_digest_mismatch_fails_before_decrypt_witness :
    ZeroTrustGateway.unsealDataT ztTriv ztKeys ⟨[7], [1, 2], [9]⟩
      = (.error .integrityMismatch, [.digestCheck])
    ∧ ZTOp.twofishDecrypt ∉ (ZeroTrustGateway.unsealDataT ztTriv ztKeys ⟨[7], [1, 2], [9]⟩).2
    ∧ ZTOp.aesDecrypt ∉ (ZeroTrustGateway.unsealDataT ztTriv ztKeys ⟨[7], [1, 2], [9]⟩).2 :=
  unseal_digest_mismatch_fails_before_decrypt ztTriv ztKeys
    ⟨[7], [1, 2], [9]⟩ ⟨[7], [1, 2], [9]⟩ [7] [1, 2]
    rfl rfl rfl (by decide)

/-- C1: if the stored record's signature does not equal the digest of the
stored path, `execute` fails with the signature-mismatch error, and neither
the module import nor the function call is ever performed. -/
theorem execute_tampered_record_fails_closed {A R : Type}
    (hashHex : String → String) (w : OrchWorld A R) (o : Orch)
    (name funcName : String) (args : A) (r : ModRecord)
    (hreg : dictGet o.registry name = some r)
    (htamper : r.signature ≠ Orch.sign hashHex r.path) :
    Orch.executeT hashHex w o name funcName args
      = (.error .sigMismatch, [.lookup, .verifySig])
    ∧ OrchOp.importModule ∉ (Orch.executeT hashHex w o name funcName args).2
    ∧ OrchOp.callFunc ∉ (Orch.executeT hashHex w o name funcName args).2 := by
  have hv : Orch.verify hashHex r.path r.signature = false := by
    simp only [Orch.verify, Orch.sign, beq_eq_false_iff_ne, ne_eq]
    exact fun h => htamper h.symm
  refine ⟨?_, ?_, ?_⟩ <;> simp [Orch.executeT, hreg, hv]

/-- Witness for C1 at a concrete tampered registry. -/
theorem execute_tampered_record_fails_closed_witness :
    Orch.executeT owHash owWorld owOrchTampered "m" "f" 0
      = (.error .sigMismatch, [.lookup, .verifySig])
    ∧ OrchOp.importModule ∉ (Orch.executeT owHash owWorld owOrchTampered "m" "f" 0).2
    ∧ OrchOp.callFunc ∉ (Orch.executeT owHash owWorld owOrchTampered "m" "f" 0).2 :=
  execute_tampered_record_fails_closed owHash owWorld owOrchTampered "m" "f" 0
    ⟨"p", "bad", 0⟩ (by decide) (by decide)

/-- C10: `verify s (sign s)` always holds; `register` either leaves the
registry unchanged (import failure) or stores a record whose signature is the
digest of its path; and executing a module whose record still satisfies
`signature = sign path` never fails the integrity check. -/
theorem sign_verify_roundtrip {A R : Type} (hashHex : String → String) :
    (∀ s : String, Orch.verify hashHex s (Orch.sign hashHex s) = true)
    ∧ (∀ (w : OrchWorld A R) (o : Orch) (name path : String) (ts : Nat),
        (Orch.register hashHex w o name path ts).registry = o.registry
        ∨ dictGet (Orch.register hashHex w o name path ts).registry name
            = some ⟨path, Orch.sign hashHex path, ts⟩)
    ∧ (∀ (w : OrchWorld A R) (o : Orch) (name funcName : String) (args : A)
        (r : ModRecord),
        dictGet o.registry name = some r →
        r.signature = Orch.sign hashHex r.path →
        (Orch.executeT hashHex w o name funcName args).1
          ≠ .error .sigMismatch) := by
  refine ⟨fun s => by simp [Orch.verify], fun w o name path ts => ?_,
    fun w o name funcName args r hreg hsig => ?_⟩
  · unfold Orch.register
    cases w.modules path with
    | none => exact .inl rfl
    | some m => exact .inr (dictGet_dictSet _ _ _)
  · have hv : Orch.verify hashHex r.path r.signature = true := by
      simp [Orch.verify, hsig]
    simp only [Orch.executeT, hreg, hv, if_true]
    cases hm : w.modules r.path with
    | none => simp
    | some m =>
      cases hf : m funcName with
      | none => simp [hf]
      | some f => simp [hf]

/-- Witness for C10 at a concrete untampered registry. -/
theorem sign_verify_roundtrip_witness :
    Orch.verify owHash "p" (Orch.sign owHash "p") = true
    ∧ (Orch.executeT owHash owWorld owOrchGood "m" "f" 0).1
        ≠ Except.error OrchErr.sigMismatch :=
  ⟨(sign_verify_roundtrip (A := Nat) (R := Nat) owHash).1 "p",
   (sign_verify_roundtrip owHash).2.2 owWorld owOrchGood "m" "f" 0
     ⟨"p", "X", 0⟩ (by decide) rfl⟩

/-- C6 fails on the code: the scheduler's `try`/`finally` has no `except`
clause, so a job callback that raises does update its own `next_at` in the
`finally` (to the post-call time plus its interval), but the exception then
propagates out of the `for` and `while`, terminating the loop thread: no
other job fires on this or any later tick. Concretely, with `badJob` (raises,
due) before `goodJob` (due, never raising) and five ticks of fuel, the run
ends at the first tick with the exception, `badJob.nextAt` rescheduled to
`(badJob.fn 100).2 + badJob.everySec = 108`, and `goodJob` untouched
(`nextAt` still `0`: it never fired). -/
theorem scheduler_raising_job_terminates_loop :
    schedLoop 5 [badJob, goodJob] 100
      = ([{ badJob with nextAt := (badJob.fn 100).2 + badJob.everySec },
          goodJob],
         (badJob.fn 100).2, some ()) := rfl

/-- C7: successive dequeues return the queued entries in ascending
`(priority, enqueue time)` order — lower numeric priority first, FIFO within
a priority — for every queue content; in particular, priorities
`[5, 1, 5, 1]` enqueued in that order (at clock times 0, 1, 2, 3) are
dequeued as the first priority-1 entry, the second priority-1 entry, the
first priority-5 entry, then the second priority-5 entry. -/
theorem taskqueue_priority_fifo_order :
    (∀ l : List QTask,
        List.Perm (drain l) l ∧ List.Sorted taskLe (drain l))
    ∧ drain (enqueueAll [5, 1, 5, 1]).q = [(1, 1), (1, 3), (5, 0), (5, 2)] :=
  ⟨fun l => drainFuel_perm_sorted l.length l le_rfl, by decide⟩

/-- C8: `subscribe` appends to the topic's handler list, and `publish`
invokes exactly the currently subscribed handlers of the topic, each once, in
subscription order (positions `0, 1, …, n-1` in order), whatever the handlers
do — a raising handler neither stops later handlers (the trace is always
complete) nor reaches the publisher (`publish` is a total function). -/
theorem eventbus_publish_all_in_order (S E : Type) :
    (∀ (bus : EventBus S E) (topic : String) (h : S → Except E S),
        (bus.subscribe topic h).subsOf topic = bus.subsOf topic ++ [h])
    ∧ (∀ (bus : EventBus S E) (topic : String) (s : S),
        (bus.publish topic s).2 = List.range (bus.subsOf topic).length) := by
  constructor
  · intro bus topic h
    unfold EventBus.subscribe EventBus.subsOf
    rw [dictGet_dictSet]
    rfl
  · intro bus topic s
    unfold EventBus.publish
    rw [publishGo_trace, List.range_eq_range']
